import Mathlib

/-!
Verification of the repository's natural-language specification against the
code: the social-media client under `src/` and the chat client's streaming
core (`StreamingChatSession`), whose implementation file is absent from the
snapshot and is therefore modelled from the spec (definitions marked
`Modelled from the spec:`).
-/

namespace ReactNativeSpec

/-- Role of a chat message, per section 3 of the spec. -/
inductive Role where
  | user
  | assistant
  | system
deriving DecidableEq, Repr

/-- A chat message reduced to its role and content fields, as in the outgoing
payload entries built by `send`. -/
structure ChatMessage where
  role : Role
  content : String
deriving DecidableEq, Repr

/-- StreamState, per section 3 of the spec: one of Idle, Awaiting, Streaming,
Done, Aborted, Failed(reason). -/
inductive StreamState where
  | Idle
  | Awaiting
  | Streaming
  | Done
  | Aborted
  | Failed : String → StreamState
deriving DecidableEq, Repr

/-- A state is terminal when it is Done, Aborted, or Failed: no further lines
or chunks are processed there. -/
def StreamState.isTerminal : StreamState → Bool
  | .Done => true
  | .Aborted => true
  | .Failed _ => true
  | _ => false

/-- A session is active while a request is in flight: Awaiting or Streaming. -/
def StreamState.isActive : StreamState → Bool
  | .Awaiting => true
  | .Streaming => true
  | _ => false

/-- Modelled from the spec: the observable state of one StreamingChatSession
(the implementation file is not in the snapshot): the accumulator string
scoped to the session, its StreamState, and the UpdateEvents emitted so far,
each carrying the full accumulated content at emission time. -/
structure Session where
  content : String
  state : StreamState
  events : List String
deriving DecidableEq, Repr

/-- Drop a literal sequence of characters from the front of a character list;
`none` when the list does not start with it. -/
def dropLit : List Char → List Char → Option (List Char)
  | [], cs => some cs
  | _ :: _, [] => none
  | p :: ps, c :: cs => if p = c then dropLit ps cs else none

/-- Read the body of a JSON string up to its closing double quote, returning
the body and the remainder; `none` when no closing quote exists. -/
def takeStr : List Char → Option (List Char × List Char)
  | [] => none
  | c :: cs =>
    if c = '\"' then some ([], cs)
    else match takeStr cs with
      | none => none
      | some (body, rest) => some (c :: body, rest)

/-- Split a character list on newline characters; always returns at least one
(possibly empty) line. -/
def splitNl : List Char → List (List Char)
  | [] => [[]]
  | c :: cs =>
    if c = '\n' then [] :: splitNl cs
    else match splitNl cs with
      | [] => [[c]]
      | l :: ls => (c :: l) :: ls

/-- Modelled from the spec: parse of a non-sentinel event payload with the
wire shape given in section 6 — a JSON object whose choices array holds one
delta object with an optional string content field. Returns `some (some c)`
when content is present, `some none` when the delta object is empty, and
`none` (parse failure, to be skipped) for any other text. -/
def parsePayload (payload : List Char) : Option (Option String) :=
  match dropLit ("\x7b\"choices\":[\x7b\"delta\":".toList) payload with
  | none => none
  | some rest =>
    match dropLit ("\x7b\x7d\x7d]\x7d".toList) rest with
    | some [] => some none
    | _ =>
      match dropLit ("\x7b\"content\":\"".toList) rest with
      | none => none
      | some rest2 =>
        match takeStr rest2 with
        | none => none
        | some (body, rest3) =>
          match dropLit ("\x7d\x7d]\x7d".toList) rest3 with
          | some [] => some (some (String.mk body))
          | _ => none

/-- The sentinel payload, section 4.1 step 3. -/
def sentinel : List Char := "[DONE]".toList

/-- Modelled from the spec: processing of one decoded line (section 4.1 steps
2-5). In a terminal state nothing is processed. A line without the data
marker is ignored. The sentinel payload transitions to Done. A payload that
fails to parse is skipped. A present, non-empty delta content is appended to
the accumulator and an UpdateEvent carrying the full accumulated content is
emitted. -/
def procLine (s : Session) (line : List Char) : Session :=
  if s.state.isTerminal then s
  else match dropLit ("data: ".toList) line with
    | none => s
    | some payload =>
      if payload = sentinel then { s with state := .Done }
      else match parsePayload payload with
        | none => s
        | some none => s
        | some (some d) =>
          if d.isEmpty then s
          else
            let c := s.content ++ d
            { s with content := c, events := s.events ++ [c] }

/-- Process a list of decoded lines in order. -/
def procLines (s : Session) (lines : List (List Char)) : Session :=
  lines.foldl procLine s

/-- Modelled from the spec: processing of one raw chunk (section 4.1 steps
1-2): decode it and split the available text into newline-delimited lines,
then process each line. -/
def procChunk (s : Session) (chunk : String) : Session :=
  procLines s (splitNl chunk.toList)

/-- Process a sequence of chunks in arrival order. -/
def procChunks (s : Session) (chunks : List String) : Session :=
  chunks.foldl procChunk s

/-- Modelled from the spec: cancel() transitions the session to Aborted; the
accumulated content is not altered and no event is emitted (section 4.1,
Cancellation). -/
def cancelSession (s : Session) : Session :=
  { s with state := .Aborted }

/-- Modelled from the spec: the source's handler for a non-abort error. The
spec records (section 4.1, Failure semantics) that the source always
overwrites the accumulator with the user-facing fallback string on any
non-abort error, discarding partial streamed content, and that an abort
always wins over an in-flight error race (section 7). -/
def onStreamError (s : Session) (reason fallback : String) : Session :=
  if s.state = .Aborted then s
  else { s with state := .Failed reason, content := fallback }

/-- An assistant message with empty content: the local placeholder excluded
from outgoing payloads (section 3, ConversationHistory). -/
def isEmptyAssistant (m : ChatMessage) : Bool :=
  match m.role with
  | .assistant => m.content.isEmpty
  | _ => false

/-- The outgoing request payload: reduced message entries plus the
configuration fields model and stream (section 6). -/
structure Payload where
  messages : List ChatMessage
  model : String
  stream : Bool
deriving DecidableEq, Repr

/-- Messages of the outgoing payload: the history with empty placeholder
assistant messages filtered out. -/
def payloadMessages (hist : List ChatMessage) : List ChatMessage :=
  hist.filter (fun m => !(isEmptyAssistant m))

/-- A session as freshly created by send: empty accumulator, request sent,
no bytes yet. -/
def freshSession : Session :=
  { content := "", state := .Awaiting, events := [] }

/-- Modelled from the spec: the conversation-level state the session manager
owns — the shared history and every session created so far, newest last
(sections 5 and 9). -/
structure AppState where
  history : List ChatMessage
  sessions : List Session
deriving DecidableEq, Repr

/-- Cancel every currently active session in place: the
cancelling-before-replacing step of the at-most-one-in-flight policy
(section 5). -/
def cancelActiveSessions (ss : List Session) : List Session :=
  ss.map (fun s => if s.state.isActive then cancelSession s else s)

/-- How many empty assistant placeholders a history holds. -/
def countEmptyAssistant (hist : List ChatMessage) : Nat :=
  (hist.filter isEmptyAssistant).length

/-- Modelled from the spec: send (section 4.1 contract): first cancel any
prior active session, then append the user message and the empty assistant
placeholder to the history, build the outgoing payload from the full history
with empty placeholder assistant messages filtered out plus the
configuration fields, and register the new session. -/
def send (app : AppState) (newUserText modelId : String) : AppState × Payload :=
  let cancelled : AppState := { app with sessions := cancelActiveSessions app.sessions }
  let histUser := cancelled.history ++ [⟨Role.user, newUserText⟩]
  let histFull := histUser ++ [⟨Role.assistant, ""⟩]
  let payload : Payload :=
    { messages := payloadMessages histFull, model := modelId, stream := true }
  ({ history := histFull, sessions := cancelled.sessions ++ [freshSession] }, payload)

/-- A flat comment as fetched for a post, restricted to the fields
organizeComments inspects (src/unnamed/part_000). -/
structure Comment where
  id : Int
  parent_id : Option Int
  content : String
deriving DecidableEq, Repr

/-- Truthiness of the parent_id field as the source tests it: null and 0 are
falsy, every other number is truthy. -/
def parentTruthy : Option Int → Bool
  | none => false
  | some v => v != 0

/-- A comment augmented with its replies field, as organizeComments builds
it. -/
inductive CommentTree where
  | node : Comment → List CommentTree → CommentTree
deriving Repr

/-- The comment at the root of an augmented node. -/
def CommentTree.comment : CommentTree → Comment
  | node c _ => c

/-- The comments of the input list registered under parent key i: exactly the
per-parent bucket the source accumulates, in input order. -/
def childrenOf (all : List Comment) (i : Int) : List Comment :=
  all.filter (fun c => parentTruthy c.parent_id && c.parent_id == some i)

/-- The source's addReplies closure: augment a comment with the bucket of its
id, recursively. The source recurses without a bound and diverges on a
pathological reachable cycle; the model carries fuel, which organizeComments
sets to the input length. -/
def addReplies (all : List Comment) : Nat → Comment → CommentTree
  | 0, c => .node c []
  | fuel + 1, c => .node c ((childrenOf all c.id).map (addReplies all fuel))

/-- organizeComments (src/unnamed/part_000 lines 529-545): bucket the
comments by truthy parent_id, keep the falsy-parent ones as roots in input
order, and augment each root with its replies recursively. -/
def organizeComments (all : List Comment) : List CommentTree :=
  (all.filter (fun c => !(parentTruthy c.parent_id))).map (addReplies all all.length)

mutual

/-- Every comment appearing in an augmented tree, root first. -/
def treeComments : CommentTree → List Comment
  | .node c ts => c :: forestComments ts

/-- Every comment appearing in a list of augmented trees. -/
def forestComments : List CommentTree → List Comment
  | [] => []
  | t :: ts => treeComments t ++ forestComments ts

end

/-- A feed post restricted to the fields handleLike inspects or updates,
plus representative frame fields. -/
structure Post where
  id : Nat
  user_id : Nat
  caption : String
  likes_count : Int
  comments_count : Nat
  liked_by_user : Bool
  bookmarked_by_user : Bool
deriving DecidableEq, Repr

/-- The posts-list update handleLike performs on a successful like response
(src/App.tsx lines 415-422 and src/unnamed/part_000 lines 416-423): map over
the previous list, rewriting each post whose id equals the liked post id. -/
def handleLikeUpdate (posts : List Post) (postId : Nat) (liked : Bool) : List Post :=
  posts.map (fun p =>
    if p.id = postId then
      { p with liked_by_user := liked,
               likes_count := p.likes_count + (if liked then 1 else -1) }
    else p)

/-- The event lists a session may emit from a given accumulator value: each
event carries the full content so far — the previous content extended by one
non-empty delta — and the last component is the content reached at the end.
-/
inductive Chain : String → List String → String → Prop where
  | nil (c : String) : Chain c [] c
  | cons (c d : String) (evs : List String) (last : String) :
      d ≠ "" → Chain (c ++ d) evs last → Chain c ((c ++ d) :: evs) last

/-- The first chunk of the sentinel-termination test, section 8 item 3: a
delta carrying the content Hi. -/
def chunkHi : String :=
  "data: \x7b\"choices\":[\x7b\"delta\":\x7b\"content\":\"Hi\"\x7d\x7d]\x7d\n"

/-- The second chunk of the sentinel-termination test: the sentinel line. -/
def chunkDone : String := "data: [DONE]\n"

/-- The third chunk of the sentinel-termination test: a delta, carrying the
content ignored, that arrives after the sentinel. -/
def chunkIgnored : String :=
  "data: \x7b\"choices\":[\x7b\"delta\":\x7b\"content\":\"ignored\"\x7d\x7d]\x7d\n"

/-! ## Helper lemmas -/

theorem dropLit_append (p x : List Char) : dropLit p (p ++ x) = some x := by
  induction p with
  | nil => rfl
  | cons c cs ih => simp [dropLit, ih]

theorem procLine_of_terminal (s : Session) (l : List Char)
    (h : s.state.isTerminal = true) : procLine s l = s := by
  unfold procLine
  simp [h]

theorem procLines_of_terminal (s : Session) (lines : List (List Char))
    (h : s.state.isTerminal = true) : procLines s lines = s := by
  induction lines with
  | nil => rfl
  | cons l ls ih =>
    show List.foldl procLine (procLine s l) ls = s
    rw [procLine_of_terminal s l h]
    exact ih

theorem procChunks_of_terminal (s : Session) (cs : List String)
    (h : s.state.isTerminal = true) : procChunks s cs = s := by
  induction cs with
  | nil => rfl
  | cons c rest ih =>
    show List.foldl procChunk (procChunk s c) rest = s
    rw [show procChunk s c = s from procLines_of_terminal s _ h]
    exact ih

theorem procLine_cases (s : Session) (l : List Char) :
    procLine s l = s ∨
    procLine s l = { s with state := .Done } ∨
    ∃ d : String, d ≠ "" ∧
      procLine s l = { content := s.content ++ d, state := s.state,
                       events := s.events ++ [s.content ++ d] } := by
  unfold procLine
  split
  · exact Or.inl rfl
  · split
    · exact Or.inl rfl
    · split
      · exact Or.inr (Or.inl rfl)
      · split
        · exact Or.inl rfl
        · exact Or.inl rfl
        · split
          · exact Or.inl rfl
          · rename_i d _ hne
            refine Or.inr (Or.inr ⟨d, ?_, rfl⟩)
            intro hd
            rw [hd] at hne
            exact hne rfl

theorem procLine_content_extend (s : Session) (l : List Char) :
    ∃ t, (procLine s l).content = s.content ++ t := by
  rcases procLine_cases s l with h | h | ⟨d, _, h⟩
  · exact ⟨"", by rw [h, String.append_empty]⟩
  · exact ⟨"", by rw [h, String.append_empty]⟩
  · exact ⟨d, by rw [h]⟩

theorem procLines_content_extend (lines : List (List Char)) (s : Session) :
    ∃ t, (procLines s lines).content = s.content ++ t := by
  induction lines generalizing s with
  | nil => exact ⟨"", (String.append_empty s.content).symm⟩
  | cons l ls ih =>
    obtain ⟨t1, h1⟩ := procLine_content_extend s l
    obtain ⟨t2, h2⟩ := ih (procLine s l)
    refine ⟨t1 ++ t2, ?_⟩
    show (procLines (procLine s l) ls).content = _
    rw [h2, h1, String.append_assoc]

theorem procChunk_content_extend (s : Session) (c : String) :
    ∃ t, (procChunk s c).content = s.content ++ t :=
  procLines_content_extend _ s

/-! ## Claim theorems -/

/-- C1: per session, each processed chunk extends the accumulated content by
concatenation — the content after processing d1..dk is the content after
d1..dk-1 with a (possibly empty) suffix appended — so the content length is
monotonically non-decreasing across updates. -/
theorem streaming_content_monotone (s : Session) (ds : List String) (d : String) :
    (∃ t, (procChunks s (ds ++ [d])).content = (procChunks s ds).content ++ t) ∧
    (procChunks s ds).content.length ≤ (procChunks s (ds ++ [d])).content.length := by
  have h1 : procChunks s (ds ++ [d]) = procChunk (procChunks s ds) d := by
    simp [procChunks, List.foldl_append, procChunk]
  obtain ⟨t, ht⟩ := procChunk_content_extend (procChunks s ds) d
  refine ⟨⟨t, by rw [h1, ht]⟩, ?_⟩
  rw [h1, ht, String.length_append]
  omega

/-- C2: a line whose payload after stripping the data marker is exactly the
sentinel transitions a streaming session to Done without touching content or
events, a Done session processes no further chunk, and on the concrete
three-chunk test of section 8 item 3 the final content is Hi, the state is
Done, and the content of the post-sentinel chunk is never applied. -/
theorem sentinel_terminates :
    (∀ (c : String) (ev : List String) (line : List Char),
        dropLit ("data: ".toList) line = some sentinel →
        procLine ⟨c, .Streaming, ev⟩ line = ⟨c, .Done, ev⟩) ∧
    (∀ (c : String) (ev : List String) (cs : List String),
        procChunks ⟨c, .Done, ev⟩ cs = ⟨c, .Done, ev⟩) ∧
    procChunks ⟨"", .Streaming, []⟩ [chunkHi, chunkDone, chunkIgnored]
        = ⟨"Hi", .Done, ["Hi"]⟩ := by
  refine ⟨?_, ?_, by decide⟩
  · intro c ev line h
    unfold procLine
    simp only [StreamState.isTerminal, h]
    simp
  · intro c ev cs
    exact procChunks_of_terminal _ _ rfl

/-- Witness for the sentinel theorem at a concrete sentinel line processed by
a fresh streaming session. -/
theorem sentinel_terminates_witness :
    procLine ⟨"", .Streaming, []⟩ ("data: [DONE]".toList) = ⟨"", .Done, []⟩ :=
  sentinel_terminates.1 "" [] ("data: [DONE]".toList) (by decide)

/-- C3: after cancel, no chunk still in the buffer produces an UpdateEvent,
the state is Aborted, the accumulated content is exactly what it was at
cancellation time, and a late error is silently ignored without fallback
substitution. -/
theorem cancel_suppresses_updates (s : Session) (cs : List String) (r f : String) :
    (procChunks (cancelSession s) cs).events = s.events ∧
    (procChunks (cancelSession s) cs).content = s.content ∧
    (procChunks (cancelSession s) cs).state = .Aborted ∧
    onStreamError (procChunks (cancelSession s) cs) r f = cancelSession s := by
  have h : procChunks (cancelSession s) cs = cancelSession s :=
    procChunks_of_terminal _ _ rfl
  rw [h]
  refine ⟨rfl, rfl, rfl, ?_⟩
  simp [onStreamError, cancelSession]

/-- C6: a non-sentinel event line whose payload fails to parse is skipped —
the session is returned unchanged, so the state never becomes Failed or
Aborted, the content is never altered, and the remaining lines are processed
exactly as if the malformed line had not been there. -/
theorem parse_error_skipped (s : Session) (payload : List Char)
    (rest : List (List Char))
    (hterm : s.state.isTerminal = false)
    (hsent : payload ≠ sentinel)
    (hparse : parsePayload payload = none) :
    procLine s ("data: ".toList ++ payload) = s ∧
    procLines s (("data: ".toList ++ payload) :: rest) = procLines s rest := by
  have h1 : procLine s ("data: ".toList ++ payload) = s := by
    unfold procLine
    simp only [hterm, dropLit_append]
    simp [hsent, hparse]
  refine ⟨h1, ?_⟩
  show List.foldl procLine (procLine s _) rest = _
  rw [h1]
  rfl

/-- Witness for the parse-error-skip theorem at a concrete malformed line. -/
theorem parse_error_skipped_witness :
    procLine ⟨"", .Streaming, []⟩ ("data: ".toList ++ "\x7boops".toList)
      = ⟨"", .Streaming, []⟩ :=
  (parse_error_skipped ⟨"", .Streaming, []⟩ ("\x7boops".toList) []
    (by decide) (by decide) (by decide)).1

theorem chain_getLast (c : String) (evs : List String) (z : String)
    (h : Chain c evs z) : (evs = [] ∧ z = c) ∨ evs.getLast? = some z := by
  induction h with
  | nil c => exact Or.inl ⟨rfl, rfl⟩
  | cons c d evs last hne _ ih =>
    right
    rcases ih with ⟨he, hz⟩ | hl
    · subst he
      simp [hz]
    · cases evs with
      | nil => simp at hl
      | cons e es =>
        rw [List.getLast?_cons_cons]
        exact hl

theorem procLines_chain (lines : List (List Char)) (s : Session) :
    ∃ evs, (procLines s lines).events = s.events ++ evs ∧
      Chain s.content evs (procLines s lines).content := by
  induction lines generalizing s with
  | nil => exact ⟨[], by simp [procLines], Chain.nil s.content⟩
  | cons l ls ih =>
    have hstep : procLines s (l :: ls) = procLines (procLine s l) ls := rfl
    rcases procLine_cases s l with h | h | ⟨d, hd, h⟩
    · rw [hstep, h]
      exact ih s
    · rw [hstep, h]
      obtain ⟨evs, he, hc⟩ := ih { s with state := .Done }
      exact ⟨evs, he, hc⟩
    · rw [hstep, h]
      obtain ⟨evs, he, hc⟩ :=
        ih ⟨s.content ++ d, s.state, s.events ++ [s.content ++ d]⟩
      refine ⟨(s.content ++ d) :: evs, ?_, Chain.cons s.content d evs _ hd hc⟩
      rw [he]
      simp

/-- C8: every UpdateEvent a run emits carries the full accumulated content at
its emission — the newly emitted events form a chain in which each event is
the previous content extended by one non-empty delta, so the k-th event
equals the starting content followed by the concatenation of the first k
applied deltas — and the latest emitted event (when one exists) equals the
final accumulated content. -/
theorem update_events_idempotent (s : Session) (lines : List (List Char)) :
    ∃ evs, (procLines s lines).events = s.events ++ evs ∧
      Chain s.content evs (procLines s lines).content ∧
      ((evs = [] ∧ (procLines s lines).content = s.content) ∨
        evs.getLast? = some (procLines s lines).content) := by
  obtain ⟨evs, he, hc⟩ := procLines_chain lines s
  rcases chain_getLast _ _ _ hc with ⟨h1, h2⟩ | h
  · exact ⟨evs, he, hc, Or.inl ⟨h1, h2⟩⟩
  · exact ⟨evs, he, hc, Or.inr h⟩

/-- C4: the outgoing payload built by send is the full history including the
just-added user message with every empty-content assistant message removed,
together with the configuration fields model and stream set to true; on the
example history the empty assistant placeholder is excluded. -/
theorem send_payload_filters_placeholders (app : AppState) (t mdl : String) :
    (send app t mdl).2.messages
        = (app.history ++ [(⟨Role.user, t⟩ : ChatMessage)]).filter
            (fun m => !(isEmptyAssistant m)) ∧
    (send app t mdl).2.model = mdl ∧
    (send app t mdl).2.stream = true ∧
    (send ⟨[⟨Role.user, "hi"⟩, ⟨Role.assistant, ""⟩], []⟩ "again" mdl).2.messages
        = [⟨Role.user, "hi"⟩, ⟨Role.user, "again"⟩] := by
  refine ⟨?_, rfl, rfl, rfl⟩
  show payloadMessages ((app.history ++ [⟨Role.user, t⟩]) ++ [⟨Role.assistant, ""⟩]) = _
  unfold payloadMessages
  rw [List.filter_append]
  have h1 : (List.filter (fun m => !(isEmptyAssistant m))
      ([⟨Role.assistant, ""⟩] : List ChatMessage)) = [] := by decide
  rw [h1, List.append_nil]

/-- C5: at the failing input — a session that is Streaming and has already
accumulated the partial content Hi — the source's error handling, as the
spec records it, overwrites the accumulator with the fallback text and
transitions to Failed, so the partial content is not preserved. -/
theorem midstream_failure_overwrites :
    (onStreamError ⟨"Hi", .Streaming, ["Hi"]⟩ "network" "Error: no response").state
        = .Failed "network" ∧
    (onStreamError ⟨"Hi", .Streaming, ["Hi"]⟩ "network" "Error: no response").content
        = "Error: no response" ∧
    (onStreamError ⟨"Hi", .Streaming, ["Hi"]⟩ "network" "Error: no response").content
        ≠ "Hi" := by
  decide

theorem cancelActive_no_active (ss : List Session) :
    (cancelActiveSessions ss).filter (fun s => s.state.isActive) = [] := by
  induction ss with
  | nil => rfl
  | cons s rest ih =>
    show (((if s.state.isActive then cancelSession s else s) ::
            cancelActiveSessions rest).filter (fun s => s.state.isActive)) = []
    rw [List.filter_cons]
    by_cases hs : s.state.isActive = true
    · have hcan : (cancelSession s).state.isActive = false := rfl
      simp [hs, hcan, ih]
    · have hs2 : s.state.isActive = false := by
        revert hs
        cases s.state.isActive <;> simp
      simp [hs2, ih]

/-- C7: send first rewrites the session list by aborting every active
session — in place, before the history gains the new placeholder — then
registers exactly one fresh session, so afterwards exactly one session is
active; and when the prior history held no empty assistant placeholder,
exactly one exists immediately after the call. -/
theorem new_send_cancels_old (app : AppState) (t mdl : String) :
    ((send app t mdl).1.sessions
        = cancelActiveSessions app.sessions ++ [freshSession]) ∧
    (∀ (i : Nat) (p : Session), app.sessions[i]? = some p →
        p.state.isActive = true →
        (cancelActiveSessions app.sessions)[i]? = some (cancelSession p)) ∧
    (((send app t mdl).1.sessions.filter (fun s => s.state.isActive)).length = 1) ∧
    (countEmptyAssistant app.history = 0 →
        countEmptyAssistant (send app t mdl).1.history = 1) := by
  refine ⟨rfl, ?_, ?_, ?_⟩
  · intro i p hp hact
    unfold cancelActiveSessions
    rw [List.getElem?_map, hp]
    simp [hact]
  · show ((cancelActiveSessions app.sessions ++ [freshSession]).filter
        (fun s => s.state.isActive)).length = 1
    rw [List.filter_append, cancelActive_no_active]
    rfl
  · intro h0
    show countEmptyAssistant
        ((app.history ++ [⟨Role.user, t⟩]) ++ [⟨Role.assistant, ""⟩]) = 1
    unfold countEmptyAssistant at *
    rw [List.filter_append, List.filter_append, List.length_append,
        List.length_append, h0]
    have h1 : (List.filter isEmptyAssistant ([⟨Role.user, t⟩] : List ChatMessage))
        = [] := by
      simp [List.filter_cons, isEmptyAssistant]
    have h2 : (List.filter isEmptyAssistant
        ([⟨Role.assistant, ""⟩] : List ChatMessage)).length = 1 := by decide
    rw [h1, h2]
    rfl

/-- Witness for the new-send-cancels-old theorem at a concrete conversation
with one streaming session and a clean history. -/
theorem new_send_cancels_old_witness :
    (cancelActiveSessions [⟨"old", .Streaming, []⟩])[0]?
        = some (cancelSession ⟨"old", .Streaming, []⟩) ∧
    countEmptyAssistant
        (send ⟨[⟨Role.user, "hi"⟩], [⟨"old", .Streaming, []⟩]⟩ "again" "m").1.history
      = 1 :=
  ⟨(new_send_cancels_old ⟨[⟨Role.user, "hi"⟩], [⟨"old", .Streaming, []⟩]⟩ "again" "m").2.1
      0 ⟨"old", .Streaming, []⟩ rfl (by decide),
   (new_send_cancels_old ⟨[⟨Role.user, "hi"⟩], [⟨"old", .Streaming, []⟩]⟩ "again" "m").2.2.2
      (by decide)⟩

theorem addReplies_comment (all : List Comment) (fuel : Nat) (c : Comment) :
    (addReplies all fuel c).comment = c := by
  cases fuel <;> rfl

theorem mem_forestComments {c : Comment} : ∀ {ts : List CommentTree},
    c ∈ forestComments ts ↔ ∃ t ∈ ts, c ∈ treeComments t := by
  intro ts
  induction ts with
  | nil => simp [forestComments]
  | cons t ts ih => simp [forestComments, List.mem_append, ih]

theorem childrenOf_mem_all {all : List Comment} {i : Int} {c : Comment}
    (h : c ∈ childrenOf all i) : c ∈ all :=
  (List.mem_filter.mp h).1

theorem mem_addReplies (all : List Comment) :
    ∀ (fuel : Nat) (c0 c : Comment),
      c ∈ treeComments (addReplies all fuel c0) →
      c = c0 ∨ ∃ d, (d = c0 ∨ d ∈ all) ∧ c ∈ childrenOf all d.id := by
  intro fuel
  induction fuel with
  | zero =>
    intro c0 c hc
    left
    simpa [addReplies, treeComments, forestComments] using hc
  | succ n ih =>
    intro c0 c hc
    rw [addReplies, treeComments] at hc
    rcases List.mem_cons.mp hc with h | h
    · exact Or.inl h
    · obtain ⟨t, htmem, hcsub⟩ := mem_forestComments.mp h
      obtain ⟨c1, hc1mem, rfl⟩ := List.mem_map.mp htmem
      rcases ih c1 c hcsub with rfl | ⟨d, hd, hdc⟩
      · exact Or.inr ⟨c0, Or.inl rfl, hc1mem⟩
      · rcases hd with rfl | hdall
        · exact Or.inr ⟨d, Or.inr (childrenOf_mem_all hc1mem), hdc⟩
        · exact Or.inr ⟨d, Or.inr hdall, hdc⟩

/-- C9: the roots organizeComments returns are exactly the comments with a
falsy parent_id, in input order; each augmented node's replies are exactly
the input comments registered under its id, in input order, recursively
while fuel remains; and a comment whose truthy parent_id matches no comment
id in the list appears nowhere in the result. -/
theorem organizeComments_correct (all : List Comment) :
    ((organizeComments all).map CommentTree.comment
        = all.filter (fun c => !(parentTruthy c.parent_id))) ∧
    (∀ (fuel : Nat) (c : Comment),
        addReplies all (fuel + 1) c
          = .node c ((childrenOf all c.id).map (addReplies all fuel))) ∧
    (∀ (c : Comment) (v : Int), c.parent_id = some v → v ≠ 0 →
        (∀ d ∈ all, d.id ≠ v) →
        ∀ t ∈ organizeComments all, c ∉ treeComments t) := by
  refine ⟨?_, fun fuel c => rfl, ?_⟩
  · unfold organizeComments
    generalize all.filter (fun c => !(parentTruthy c.parent_id)) = roots
    induction roots with
    | nil => rfl
    | cons r rs ih => simp only [List.map_cons, addReplies_comment, ih]
  · intro c v hv hv0 hnone t ht hmem
    obtain ⟨r, hrmem, rfl⟩ := List.mem_map.mp ht
    have hroot := (List.mem_filter.mp hrmem).2
    rcases mem_addReplies all all.length r c hmem with rfl | ⟨d, hd, hdc⟩
    · rw [hv] at hroot
      simp [parentTruthy, hv0] at hroot
    · have hdall : d ∈ all := by
        rcases hd with rfl | h
        · exact (List.mem_filter.mp hrmem).1
        · exact h
      have hpred := (List.mem_filter.mp hdc).2
      rw [hv] at hpred
      simp only [Bool.and_eq_true, beq_iff_eq, Option.some.injEq] at hpred
      exact hnone d hdall (hpred.2 ▸ rfl)

/-- Witness for the organizeComments theorem on a concrete list holding a
root, a child of the root, and an orphan whose parent id 99 matches no
comment. -/
theorem organizeComments_correct_witness :
    (⟨3, some 99, "orphan"⟩ : Comment) ∉
      treeComments (addReplies
        [⟨1, none, "root"⟩, ⟨2, some 1, "child"⟩, ⟨3, some 99, "orphan"⟩]
        3 ⟨1, none, "root"⟩) :=
  (organizeComments_correct
      [⟨1, none, "root"⟩, ⟨2, some 1, "child"⟩, ⟨3, some 99, "orphan"⟩]).2.2
    ⟨3, some 99, "orphan"⟩ 99 rfl (by decide) (by decide)
    (addReplies
      [⟨1, none, "root"⟩, ⟨2, some 1, "child"⟩, ⟨3, some 99, "orphan"⟩]
      3 ⟨1, none, "root"⟩)
    (List.mem_singleton.mpr rfl)

/-- C10: the posts-list update handleLike performs on a successful response
preserves the length and order of the list, leaves every post whose id
differs from the liked post id untouched, and rewrites each post carrying
the liked id by setting liked_by_user to the response flag and moving
likes_count by exactly plus one when liked and minus one otherwise, leaving
its remaining fields unchanged. -/
theorem handleLike_frame (posts : List Post) (pid : Nat) (liked : Bool) :
    (handleLikeUpdate posts pid liked).length = posts.length ∧
    (∀ (i : Nat) (p : Post), posts[i]? = some p → p.id ≠ pid →
        (handleLikeUpdate posts pid liked)[i]? = some p) ∧
    (∀ (i : Nat) (p : Post), posts[i]? = some p → p.id = pid →
        (handleLikeUpdate posts pid liked)[i]? =
          some { p with
                 liked_by_user := liked,
                 likes_count := p.likes_count + (if liked then 1 else -1) }) := by
  refine ⟨by simp [handleLikeUpdate], ?_, ?_⟩
  · intro i p hp hne
    unfold handleLikeUpdate
    rw [List.getElem?_map, hp]
    simp [hne]
  · intro i p hp he
    unfold handleLikeUpdate
    rw [List.getElem?_map, hp]
    simp [he]

/-- Witness for the handleLike frame theorem on a concrete two-post list
where post 2 is unliked. -/
theorem handleLike_frame_witness :
    (handleLikeUpdate
        [⟨1, 1, "a", 0, 0, false, false⟩, ⟨2, 1, "b", 5, 0, true, false⟩]
        2 false)[0]? = some ⟨1, 1, "a", 0, 0, false, false⟩ ∧
    (handleLikeUpdate
        [⟨1, 1, "a", 0, 0, false, false⟩, ⟨2, 1, "b", 5, 0, true, false⟩]
        2 false)[1]? = some ⟨2, 1, "b", 4, 0, false, false⟩ :=
  ⟨(handleLike_frame
      [⟨1, 1, "a", 0, 0, false, false⟩, ⟨2, 1, "b", 5, 0, true, false⟩]
      2 false).2.1 0 ⟨1, 1, "a", 0, 0, false, false⟩ rfl (by decide),
   ((handleLike_frame
      [⟨1, 1, "a", 0, 0, false, false⟩, ⟨2, 1, "b", 5, 0, true, false⟩]
      2 false).2.2 1 ⟨2, 1, "b", 5, 0, true, false⟩ rfl rfl).trans (by decide)⟩

end ReactNativeSpec
